import Mathlib

/-!
Verification development for the discdiag disc-diagnostic interpreter
(`src/discdiag.c`).  Each section shallowly embeds the C functions the
claims refer to; machine integers are modelled as `Nat`/`Int` with
explicit reductions mod `2^w` where the C type forces wraparound.
`unsigned long` is modelled as 32 bits wide, matching the generator
comments in the source ("Return the next 32 bit random number") and the
primary mingw build target described in the file header.
-/

namespace Discdiag

/-! ## Result codes (C enum `result`, discdiag.c:424) -/

inductive result where
  | result_ok
  | result_exit
  | result_error
  | result_break
  | result_continue
  | result_stop
  | result_restart
deriving DecidableEq, Repr

open result

/-! ## Two's-complement helpers.

`wrap64 x` is the value of the signed 64-bit `long long` whose unsigned
image is `x mod 2^64`; `toInt32` models the C cast `(int) v`;
`toUnsigned64 v` is the unsigned 64-bit image of a `long long` value. -/

def wrap64 (x : Int) : Int := (x + 2 ^ 63) % 2 ^ 64 - 2 ^ 63

def toInt32 (x : Int) : Int := (x + 2 ^ 31) % 2 ^ 32 - 2 ^ 31

def toUnsigned64 (v : Int) : Nat := (v % 2 ^ 64).toNat

/-- C `long long` division (truncation toward zero), wrapped to 64 bits
so that `INT64_MIN / -1` behaves as two's-complement overflow. -/
def cdiv (a b : Int) : Int := wrap64 (Int.tdiv a b)

/-- C `long long` remainder (sign of the dividend). -/
def cmod (a b : Int) : Int := Int.tmod a b

/-! ## Pseudo-random number generator (discdiag.c:866-908).

`seed` is an `unsigned long` (32-bit model).  `rand32` returns the new
31-bit state, which is also the new seed; `rand64` composes two
successive samples, first sample in the high 32 bits.  `rand64` returns
the composed value together with the seed after both calls. -/

def rand32 (seed : Nat) : Nat :=
  let tmpseed := 33614 * seed % 2 ^ 64
  let q := tmpseed % 2 ^ 32
  let q := q / 2
  let p := tmpseed / 2 ^ 32
  let mlcg := (p + q) % 2 ^ 32
  if mlcg &&& 0x80000000 ≠ 0 then ((mlcg &&& 0x7FFFFFFF) + 1) % 2 ^ 32
  else mlcg

def rand64 (seed : Nat) : Nat × Nat :=
  let r1 := rand32 seed
  let r2 := rand32 r1
  (((r1 &&& 0x7fffffff) <<< 32) ||| r2, r2)

/-- The sign-bit fold at the end of `rand32` keeps any input below
`2^31 + 33614` under `2^31`. -/
theorem fold_lt {m : Nat} (hm : m < 2 ^ 31 + 33614) :
    (if m &&& 0x80000000 ≠ 0 then ((m &&& 0x7FFFFFFF) + 1) % 2 ^ 32 else m) <
      2 ^ 31 := by
  have hand : m &&& 0x7FFFFFFF = m % 2 ^ 31 := by
    have h := Nat.and_pow_two_sub_one_eq_mod m 31
    norm_num at h ⊢
    exact h
  have hbit : m &&& 0x80000000 = (m.testBit 31).toNat * 2 ^ 31 := by
    have h := Nat.and_two_pow m 31
    norm_num at h ⊢
    exact h
  have htb : m.testBit 31 = decide (m / 2 ^ 31 % 2 = 1) :=
    Nat.testBit_to_div_mod
  by_cases hd : m / 2 ^ 31 % 2 = 1
  · have hb : (m.testBit 31).toNat = 1 := by rw [htb, decide_eq_true hd]; rfl
    rw [if_pos (by rw [hbit, hb]; norm_num), hand]
    omega
  · have hb : (m.testBit 31).toNat = 0 := by rw [htb, decide_eq_false hd]; rfl
    rw [if_neg (by rw [hbit, hb]; simp)]
    omega

/-- The state produced by `rand32` always fits in 31 bits: the folded
sum `p + q` is at most `33613 + (2^31 - 1)`, so the carry fold can only
produce small values. -/
theorem rand32_lt (seed : Nat) (h : seed < 2 ^ 32) : rand32 seed < 2 ^ 31 := by
  simp only [rand32]
  have hx : 33614 * seed % 2 ^ 64 = 33614 * seed :=
    Nat.mod_eq_of_lt (by omega)
  simp only [hx]
  apply fold_lt
  have hq : 33614 * seed % 2 ^ 32 / 2 ≤ 2 ^ 31 - 1 := by omega
  have hp : 33614 * seed / 2 ^ 32 ≤ 33613 := by
    have : 33614 * seed ≤ 33614 * (2 ^ 32 - 1) := by omega
    omega
  generalize 33614 * seed / 2 ^ 32 = P at hp ⊢
  generalize 33614 * seed % 2 ^ 32 / 2 = Q at hq ⊢
  omega

/-- C5: one call to `rand64` returns the concatenation of two successive
32-bit `rand32` samples (first sample in the high word), with the top
bit of the low word masked off, and the returned 64-bit value is always
non-negative (below `2^63`, so the sign bit of the C `long long` is
clear).  In the source the mask is written on the high word, but both
masks are no-ops because `rand32` keeps its state below `2^31`. -/
theorem c5_rand64_concat_nonneg (seed : Nat) (h : seed < 2 ^ 32) :
    (rand64 seed).1 =
      (rand32 seed <<< 32) ||| (rand32 (rand32 seed) &&& 0x7fffffff) ∧
      (rand64 seed).1 < 2 ^ 63 := by
  have h1 := rand32_lt seed h
  have h2 := rand32_lt (rand32 seed) (by omega)
  have mask_id : ∀ m : Nat, m < 2 ^ 31 → m &&& 0x7fffffff = m := by
    intro m hmlt
    have h := Nat.and_pow_two_sub_one_eq_mod m 31
    norm_num at h ⊢
    rw [h]
    exact Nat.mod_eq_of_lt hmlt
  constructor
  · simp only [rand64]
    rw [mask_id _ h1, mask_id _ h2]
  · simp only [rand64]
    rw [mask_id _ h1]
    apply Nat.or_lt_two_pow (n := 63)
    · rw [Nat.shiftLeft_eq]
      have : rand32 seed * 2 ^ 32 < 2 ^ 31 * 2 ^ 32 := by omega
      omega
    · omega

/-- Witness for C5 at the initial seed 1. -/
theorem c5_witness :
    (1 : Nat) < 2 ^ 32 ∧
      ((rand64 1).1 =
        (rand32 1 <<< 32) ||| (rand32 (rand32 1) &&& 0x7fffffff) ∧
        (rand64 1).1 < 2 ^ 63) :=
  ⟨by norm_num, c5_rand64_concat_nonneg 1 (by norm_num)⟩

/-! ## Drive state, `drive`, `unprot` and `write` commands
(discdiag.c:310-333, 2520-2603, 3170-3219, 3276-3286, 4830-4832).

Parameter parsing (`getparam`) is abstracted into a `ParseC` event: the
parameter is absent, parses to a value, or fails to parse.  `getparam`
touches none of the fields of this state, so no further effect is
modelled here.  The statistics counters are C `double`s that only ever
receive exact integer increments on these paths, so they are carried as
`Int`.  The block-device back end is out of scope (spec section 6); its
success/failure results enter as oracle arguments (`sdFail`, `psz`,
`wsFail`). -/

inductive ParseC where
  | absent
  | ok (v : Int)
  | err
deriving DecidableEq, Repr

structure DriveSt where
  writeprot : Bool
  currentdrive : Int
  drivesize : Int
  iopwrite : Int
  iopread : Int
  bcwrite : Int
  bcread : Int
deriving DecidableEq, Repr

/-- Global initialisation in `main` (discdiag.c:4830-4832): no current
drive, write protect on, zero statistics. -/
def initDriveSt : DriveSt :=
  { writeprot := true, currentdrive := -1, drivesize := 0,
    iopwrite := 0, iopread := 0, bcwrite := 0, bcread := 0 }

/-- `command_unprot` (discdiag.c:3276-3286). -/
def command_unprot (st : DriveSt) : result × DriveSt :=
  (result_ok, { st with writeprot := false })

/-- `command_drive` (discdiag.c:3170-3219).  `sdFail` is the `setdrive`
result, `psz` the `physize` result (`none` = failure).  With no
parameter the command only prints the current drive. -/
def command_drive (p : ParseC) (sdFail : Bool) (psz : Option Int)
    (st : DriveSt) : result × DriveSt :=
  match p with
  | .err => (result_error, st)
  | .absent => (result_ok, st)
  | .ok v =>
    let drive := toInt32 v
    let st := { st with writeprot := true }
    if sdFail then (result_error, st)
    else
      let st := { st with currentdrive := drive }
      match psz with
      | none => (result_error, st)
      | some t =>
        (result_ok,
          { st with drivesize := cdiv t 512,
                    iopwrite := 0, iopread := 0, bcwrite := 0, bcread := 0 })

/-- Validation and device call of `command_write` after the parameter
block (discdiag.c:2556-2601). -/
def writeChecks (lba numsecs : Int) (wsFail : Bool) (st : DriveSt) :
    result × DriveSt × Bool :=
  if st.currentdrive < 0 then (result_error, st, false)
  else if numsecs > 256 then (result_error, st, false)
  else if lba ≥ st.drivesize then (result_error, st, false)
  else if wrap64 (lba + numsecs - 1) ≥ st.drivesize then (result_error, st, false)
  else if wsFail then (result_error, st, true)
  else
    (result_ok,
      { st with iopwrite := st.iopwrite + 1,
                bcwrite := st.bcwrite + wrap64 (numsecs * 512) }, true)

/-- `command_write` (discdiag.c:2520-2603).  The third component of the
return value records whether `writesector` was called. -/
def command_write (p1 p2 : ParseC) (wsFail : Bool) (st : DriveSt) :
    result × DriveSt × Bool :=
  if st.writeprot then (result_error, st, false)
  else
    match p1 with
    | .err => (result_error, st, false)
    | .absent => writeChecks 0 1 wsFail st
    | .ok v =>
      match p2 with
      | .err => (result_error, st, false)
      | .absent => writeChecks v 1 wsFail st
      | .ok w => writeChecks v w wsFail st

/-- Effective LBA used by `command_write` given the first parse event. -/
def effLba : ParseC → Int
  | .ok v => v
  | _ => 0

/-- Effective sector count used by `command_write` given both parse
events (the second parameter is only read when the first is present). -/
def effNum : ParseC → ParseC → Int
  | .ok _, .ok w => w
  | _, _ => 1

theorem writeChecks_nowrite (lba numsecs : Int) (ws : Bool) (st : DriveSt)
    (h : (writeChecks lba numsecs ws st).2.2 = false) :
    (writeChecks lba numsecs ws st).1 = result_error ∧
      (writeChecks lba numsecs ws st).2.1 = st := by
  unfold writeChecks at h ⊢
  split_ifs at h ⊢ <;> simp_all

theorem writeChecks_write (lba numsecs : Int) (ws : Bool) (st : DriveSt)
    (h : (writeChecks lba numsecs ws st).2.2 = true) :
    0 ≤ st.currentdrive ∧ numsecs ≤ 256 ∧ lba < st.drivesize ∧
      wrap64 (lba + numsecs - 1) < st.drivesize := by
  unfold writeChecks at h
  split_ifs at h <;> simp_all

/-- C9: `command_write` performs device I/O only on the full-success
path.  Part 1: with the write-protect latch set, the command fails
identically for every parameter event, without calling `writesector`
and without touching the state — the latch is tested before any
parameter is evaluated.  Part 2: on every path that does not call
`writesector`, the result is `result_error` and the state (including
the `iopwrite`/`bcwrite` statistics) is unchanged.  Part 3:
`writesector` is reached only when the latch is clear, a drive is set,
the effective sector count is within the buffer and the requested LBA
range is within the drive. -/
theorem c9_write_guards :
    (∀ (p1 p2 : ParseC) (ws : Bool) (st : DriveSt), st.writeprot = true →
        command_write p1 p2 ws st = (result_error, st, false)) ∧
    (∀ (p1 p2 : ParseC) (ws : Bool) (st : DriveSt),
        (command_write p1 p2 ws st).2.2 = false →
        (command_write p1 p2 ws st).1 = result_error ∧
          (command_write p1 p2 ws st).2.1 = st) ∧
    (∀ (p1 p2 : ParseC) (ws : Bool) (st : DriveSt),
        (command_write p1 p2 ws st).2.2 = true →
        st.writeprot = false ∧ 0 ≤ st.currentdrive ∧
          effNum p1 p2 ≤ 256 ∧ effLba p1 < st.drivesize ∧
          wrap64 (effLba p1 + effNum p1 p2 - 1) < st.drivesize) := by
  refine ⟨?_, ?_, ?_⟩
  · intro p1 p2 ws st h
    simp [command_write, h]
  · intro p1 p2 ws st h
    by_cases hw : st.writeprot
    · simp [command_write, hw]
    · cases p1 <;> cases p2 <;>
        simp only [command_write, hw, Bool.false_eq_true, if_false] at h ⊢ <;>
        first
          | exact writeChecks_nowrite _ _ _ _ h
          | simp_all
  · intro p1 p2 ws st h
    cases hw : st.writeprot with
    | true => simp [command_write, hw] at h
    | false =>
      cases p1 <;> cases p2 <;>
        simp [command_write, hw] at h <;>
        simp only [effLba, effNum] <;>
        exact ⟨by simp, writeChecks_write _ _ _ _ h⟩

/-- Witness for C9 at a write-protected initial state: no write happens
and the state is returned unchanged with an error. -/
theorem c9_witness :
    (command_write (ParseC.ok 0) (ParseC.ok 1) false initDriveSt).2.2 = false ∧
      (command_write (ParseC.ok 0) (ParseC.ok 1) false initDriveSt).1 =
        result_error ∧
      (command_write (ParseC.ok 0) (ParseC.ok 1) false initDriveSt).2.1 =
        initDriveSt :=
  ⟨by decide, c9_write_guards.2.1 (ParseC.ok 0) (ParseC.ok 1) false initDriveSt
      (by decide)⟩

/-- C2 as stated is false: the parameterless `drive` command (print the
current drive) leaves a cleared write-protect latch cleared. -/
theorem c2_counterexample :
    (command_drive ParseC.absent false none
        { writeprot := false, currentdrive := -1, drivesize := 0,
          iopwrite := 0, iopread := 0, bcwrite := 0, bcread := 0 }).2.writeprot
      = false := rfl

/-- C2 (amended): the latch starts true, `unprot` clears it, a `drive`
command that is given a drive-number parameter that parses sets it
back to true (even if `setdrive` then fails), and a `drive` command
with no parameter or a failing parse - and any `write` - leaves it
unchanged. -/
theorem c2_writeprot_latch :
    initDriveSt.writeprot = true ∧
    (∀ st : DriveSt, (command_unprot st).2.writeprot = false) ∧
    (∀ (p : ParseC) (sd : Bool) (psz : Option Int) (st : DriveSt),
        (command_drive p sd psz st).2.writeprot =
          (match p with | ParseC.ok _ => true | _ => st.writeprot)) ∧
    (∀ (p1 p2 : ParseC) (ws : Bool) (st : DriveSt),
        ((command_write p1 p2 ws st).2.1).writeprot = st.writeprot) := by
  refine ⟨rfl, fun st => rfl, ?_, ?_⟩
  · intro p sd psz st
    cases p <;> cases psz <;> cases sd <;> rfl
  · intro p1 p2 ws st
    cases hw : st.writeprot with
    | true => simp [command_write, hw]
    | false =>
      cases p1 <;> cases p2 <;>
        simp [command_write, writeChecks, hw] <;>
        split_ifs <;> simp [hw]

/-! ## Variable stack and interpreter frames
(discdiag.c:633-692, 1111-1176, 1825-1884, 4110-4141, 4214-4228).

The C lists are singly linked with the head as the stack top; they are
modelled as `List`.  The `mark` field of an interpreter frame is a
pointer into the variable list in C; pops only ever shorten the list
from the top and `set` mutates nodes in place, so the pointer is
faithfully represented by the length of the suffix it points at, with
the null pointer represented as length `0` (an empty stack at push
time).  `curlin`/`curchr` are opaque line/cursor identifiers. -/

structure intstkE where
  curlin : Nat
  curchr : Nat
  mark : Nat
deriving DecidableEq, Repr

structure IntState where
  varroot : List (String × Int)
  introot : List intstkE
deriving DecidableEq, Repr

/-- `pushlvl` (discdiag.c:1825-1841): push a frame whose locals mark is
the current variable-stack top. -/
def pushlvl (line cpos : Nat) (st : IntState) : IntState :=
  { st with introot := ⟨line, cpos, st.varroot.length⟩ :: st.introot }

/-- The truncation loop of `poplvl` (discdiag.c:1869-1876):
`while (varroot && introot->mark != varroot)` pop the top variable.
Pointer equality with the mark holds exactly when the remaining suffix
has the mark's length; a dangling mark (no suffix of that length)
drains the whole list, as the C loop would. -/
def truncVars : List (String × Int) → Nat → List (String × Int)
  | [], _ => []
  | v :: vs, k => if (v :: vs).length = k then v :: vs else truncVars vs k

/-- `poplvl` (discdiag.c:1851-1884).  `none` models the fatal
"interpreter stack runs dry" exit.  Locals are freed only when the
popped frame is not the bottom (immediate) frame and its mark is not
null. -/
def poplvl (st : IntState) : Option IntState :=
  match st.introot with
  | [] => none
  | fr :: rest =>
    let vars :=
      if rest ≠ [] ∧ fr.mark ≠ 0 then truncVars st.varroot fr.mark
      else st.varroot
    some { varroot := vars, introot := rest }

/-- In-place mutation of the first binding of a name, as `command_set`
does through `fndvar` (discdiag.c:4126-4131). -/
def setFirst : List (String × Int) → String → Int → List (String × Int)
  | [], _, _ => []
  | (m, w) :: t, n, v =>
    if m = n then (m, v) :: t else (m, w) :: setFirst t n v

/-- Variable-stack operations a frame body can perform: `vset` is
`command_set`/`command_input` (mutate an existing binding anywhere in
scope, otherwise push), `vlocal` is `command_local` and the parameter
pushes of `exec` (always push). -/
inductive VOp where
  | vset (n : String) (v : Int)
  | vlocal (n : String) (v : Int)
deriving DecidableEq, Repr

def applyVOp (vars : List (String × Int)) : VOp → List (String × Int)
  | .vset n v =>
    if vars.any (fun p => p.1 = n) then setFirst vars n v else (n, v) :: vars
  | .vlocal n v => (n, v) :: vars

theorem setFirst_names (l : List (String × Int)) (n : String) (v : Int) :
    (setFirst l n v).map Prod.fst = l.map Prod.fst := by
  induction l with
  | nil => rfl
  | cons p t ih =>
    obtain ⟨m, w⟩ := p
    by_cases h : m = n <;> simp [setFirst, h, ih]

theorem setFirst_append (fresh old : List (String × Int)) (n : String)
    (v : Int) :
    setFirst (fresh ++ old) n v =
      if fresh.any (fun p => p.1 = n) then setFirst fresh n v ++ old
      else fresh ++ setFirst old n v := by
  induction fresh with
  | nil => simp [setFirst]
  | cons p t ih =>
    obtain ⟨m, w⟩ := p
    by_cases h : m = n
    · simp [setFirst, h]
    · by_cases h2 : t.any (fun p => p.1 = n) <;>
        simp [List.cons_append, setFirst, h, h2, ih]

/-- One body operation preserves the decomposition of the stack into a
fresh part above the frame's mark and a suffix with the names of the
push-time stack. -/
theorem applyVOp_decomp (op : VOp) (fresh old : List (String × Int)) :
    ∃ fresh₁ old₁,
      applyVOp (fresh ++ old) op = fresh₁ ++ old₁ ∧
        old₁.map Prod.fst = old.map Prod.fst := by
  cases op with
  | vlocal n v => exact ⟨(n, v) :: fresh, old, rfl, rfl⟩
  | vset n v =>
    by_cases h : (fresh ++ old).any (fun p => p.1 = n)
    · rw [List.any_append] at h
      by_cases hf : fresh.any (fun p => p.1 = n)
      · refine ⟨setFirst fresh n v, old, ?_, rfl⟩
        simp [applyVOp, setFirst_append, hf, List.any_append]
      · have ho : old.any (fun p => p.1 = n) := by
          rcases Bool.or_eq_true_iff.mp h with h1 | h1
          · exact absurd h1 (by simpa using hf)
          · exact h1
        refine ⟨fresh, setFirst old n v, ?_, setFirst_names old n v⟩
        simp [applyVOp, setFirst_append, hf, List.any_append, ho]
    · refine ⟨(n, v) :: fresh, old, ?_, rfl⟩
      simp [applyVOp, h]

theorem ops_decomp (ops : List VOp) :
    ∀ fresh old : List (String × Int),
      ∃ fresh' old',
        ops.foldl applyVOp (fresh ++ old) = fresh' ++ old' ∧
          old'.map Prod.fst = old.map Prod.fst := by
  induction ops with
  | nil => intro fresh old; exact ⟨fresh, old, rfl, rfl⟩
  | cons op ops ih =>
    intro fresh old
    obtain ⟨fresh₁, old₁, heq, hnames⟩ := applyVOp_decomp op fresh old
    obtain ⟨fresh', old', heq', hnames'⟩ := ih fresh₁ old₁
    refine ⟨fresh', old', ?_, hnames'.trans hnames⟩
    simpa [List.foldl_cons, heq] using heq'

theorem truncVars_append (fresh old : List (String × Int))
    (h : old.length ≠ 0) : truncVars (fresh ++ old) old.length = old := by
  induction fresh with
  | nil =>
    cases old with
    | nil => simp at h
    | cons o os => simp [truncVars]
  | cons f fs ih =>
    have hlen : fs.length + old.length + 1 ≠ old.length := by omega
    simpa [truncVars, List.length_append, hlen] using ih

/-- C1 (amended): if at least one variable existed when the frame was
pushed, popping the frame truncates the variable stack back exactly to
the push-time suffix: same length, same names, same order; the values
of those surviving bindings are whatever the body left in them (plain
`set` on an outer variable mutates it in place and the mutation
survives the pop).  Every variable pushed inside the frame is freed. -/
theorem c1_frame_pop_restores (line cpos : Nat) (st : IntState)
    (ops : List VOp) (hframes : st.introot ≠ []) (hvars : st.varroot ≠ []) :
    ∃ fresh old',
      List.foldl applyVOp (pushlvl line cpos st).varroot ops = fresh ++ old' ∧
      poplvl { varroot := List.foldl applyVOp (pushlvl line cpos st).varroot ops,
               introot := (pushlvl line cpos st).introot } =
        some { varroot := old', introot := st.introot } ∧
      old'.length = st.varroot.length ∧
      old'.map Prod.fst = st.varroot.map Prod.fst := by
  have hbase : (pushlvl line cpos st).varroot = st.varroot := rfl
  obtain ⟨fresh', old', heq, hnames⟩ :=
    ops_decomp ops ([] : List (String × Int)) st.varroot
  rw [List.nil_append] at heq
  have hlen : old'.length = st.varroot.length := by
    have := congrArg List.length hnames
    simpa using this
  have hvlen : st.varroot.length ≠ 0 := by
    cases hv : st.varroot with
    | nil => exact absurd hv hvars
    | cons a t => simp [hv]
  refine ⟨fresh', old', by simpa [hbase] using heq, ?_, hlen, hnames⟩
  simp only [poplvl, pushlvl, hbase]
  have hmark : truncVars (List.foldl applyVOp st.varroot ops)
      st.varroot.length = old' := by
    rw [heq, ← hlen]
    exact truncVars_append fresh' old' (by omega)
  simp [hframes, hvlen, hmark]

/-- C1 as stated is false at a concrete input: with `g = 1` on the
stack, calling a procedure whose body runs `set g 2` and popping its
frame leaves `g = 2` on the stack, not the push-time stack `[g = 1]`. -/
theorem c1_counterexample :
    poplvl
        { varroot :=
            List.foldl applyVOp
              (pushlvl 1 0
                { varroot := [("g", 1)], introot := [⟨0, 0, 0⟩] }).varroot
              [VOp.vset ("g") 2],
          introot :=
            (pushlvl 1 0
              { varroot := [("g", 1)], introot := [⟨0, 0, 0⟩] }).introot } =
      some { varroot := [("g", 2)], introot := [⟨0, 0, 0⟩] } ∧
      (("g", 2) : String × Int) ≠ ("g", 1) := by
  decide

/-- Witness for the amended C1 at a concrete call. -/
theorem c1_witness :
    (({ varroot := [("g", 1)], introot := [⟨0, 0, 0⟩] } : IntState).introot
        ≠ [] ∧
      ({ varroot := [("g", 1)], introot := [⟨0, 0, 0⟩] } : IntState).varroot
        ≠ []) ∧
    (∃ fresh old',
      List.foldl applyVOp
          (pushlvl 1 0
            { varroot := [("g", 1)], introot := [⟨0, 0, 0⟩] }).varroot
          [VOp.vset ("g") 2, VOp.vlocal ("t") 9] = fresh ++ old' ∧
      poplvl { varroot :=
                List.foldl applyVOp
                  (pushlvl 1 0
                    { varroot := [("g", 1)], introot := [⟨0, 0, 0⟩] }).varroot
                  [VOp.vset ("g") 2, VOp.vlocal ("t") 9],
               introot :=
                (pushlvl 1 0
                  { varroot := [("g", 1)], introot := [⟨0, 0, 0⟩] }).introot } =
        some { varroot := old',
               introot :=
                ({ varroot := [("g", 1)], introot := [⟨0, 0, 0⟩] } :
                  IntState).introot } ∧
      old'.length =
        ({ varroot := [("g", 1)], introot := [⟨0, 0, 0⟩] } :
          IntState).varroot.length ∧
      old'.map Prod.fst =
        ({ varroot := [("g", 1)], introot := [⟨0, 0, 0⟩] } :
          IntState).varroot.map Prod.fst) :=
  ⟨⟨by decide, by decide⟩,
    c1_frame_pop_restores 1 0
      { varroot := [("g", 1)], introot := [⟨0, 0, 0⟩] }
      [VOp.vset ("g") 2, VOp.vlocal ("t") 9] (by decide) (by decide)⟩

/-! ## The `for` / `fend` loop (discdiag.c:3701-3831).

`command_for` stores `start` into the loop variable and skips the body
when `(s > e && st >= 0) || (s < e && st < 0)`; `command_fend` adds the
step to the variable (64-bit two's-complement `long long` addition),
re-evaluates the end value and applies the same test.  With `end` and
`step` expressions that the body does not change, the sequence of
values the loop variable takes is captured by `forValues`, driven by a
fuel bound because the C loop need not terminate (`step = 0`, or
wraparound). -/

def forValues : Nat → Int → Int → Int → List Int
  | 0, _, _, _ => []
  | f + 1, v, e, s =>
    if (e < v ∧ 0 ≤ s) ∨ (v < e ∧ s < 0) then []
    else v :: forValues f (wrap64 (v + s)) e s

/-- The iteration count the claim states:
`max(0, floor((b-a)/s) + 1)`. -/
def expectedCount (a b s : Int) : Int := max 0 ((b - a).fdiv s + 1)

theorem wrap64_id {x : Int} (h1 : -(2 ^ 63) ≤ x) (h2 : x < 2 ^ 63) :
    wrap64 x = x := by
  unfold wrap64
  have h : (x + 2 ^ 63) % 2 ^ 64 = x + 2 ^ 63 :=
    Int.emod_eq_of_lt (by omega) (by omega)
  omega

theorem fdiv_neg_divisor (x : Int) (n : Nat) :
    Int.fdiv x (Int.negSucc n) = (-x) / (Int.ofNat (n + 1)) := by
  match x with
  | Int.ofNat 0 => simp
  | Int.ofNat (m + 1) => rfl
  | Int.negSucc m => rfl

/-- Flooring division by a negative divisor, reduced to euclidean
division by the negated (positive) divisor. -/
theorem fdiv_of_neg {x s : Int} (hs : s < 0) :
    Int.fdiv x s = (-x) / (-s) := by
  match s with
  | Int.ofNat n =>
    exact absurd hs (Int.not_lt.mpr (Int.natCast_nonneg n))
  | Int.negSucc n =>
    rw [fdiv_neg_divisor]
    rfl

theorem forValues_pos (s b : Int) (hs : 0 < s) :
    ∀ (f : Nat) (a : Int),
      -(2 ^ 63) ≤ a → a < 2 ^ 63 → b + s < 2 ^ 63 →
      (expectedCount a b s).toNat ≤ f →
      forValues f a b s =
        (List.range (expectedCount a b s).toNat).map (fun k : Nat => a + (k : Int) * s) := by
  intro f
  induction f with
  | zero =>
    intro a h1 h2 h5 h6
    have h0 : (expectedCount a b s).toNat = 0 := Nat.le_zero.mp h6
    simp [forValues, h0]
  | succ f ih =>
    intro a h1 h2 h5 h6
    by_cases hc : b < a
    · have hq : (b - a).fdiv s < 0 := by
        rw [Int.fdiv_eq_ediv _ (by omega)]
        exact Int.ediv_neg' (by omega) hs
      have h0 : (expectedCount a b s).toNat = 0 := by
        unfold expectedCount
        omega
      rw [h0]
      simp only [forValues]
      rw [if_pos (Or.inl ⟨hc, by omega⟩)]
      rfl
    · have hab : a ≤ b := by omega
      have hqnn : 0 ≤ (b - a).fdiv s := by
        rw [Int.fdiv_eq_ediv _ (by omega)]
        exact Int.ediv_nonneg (by omega) (by omega)
      have hstep : (b - (a + s)).fdiv s = (b - a).fdiv s - 1 := by
        have he : b - (a + s) = (b - a) + (-1) * s := by ring
        rw [he, Int.fdiv_eq_ediv _ (by omega), Int.fdiv_eq_ediv _ (by omega),
          Int.add_mul_ediv_right _ _ (by omega : s ≠ 0)]
        ring
      have hcount : (expectedCount a b s).toNat =
          (expectedCount (a + s) b s).toNat + 1 := by
        unfold expectedCount
        rw [hstep]
        omega
      have hwrap : wrap64 (a + s) = a + s := wrap64_id (by omega) (by omega)
      have hrec := ih (a + s) (by omega) (by omega) h5 (by omega)
      simp only [forValues]
      rw [if_neg (by omega), hwrap, hrec, hcount, List.range_succ_eq_map,
        List.map_cons, List.map_map]
      refine List.cons_eq_cons.mpr ⟨by push_cast; ring, ?_⟩
      apply List.map_congr_left
      intro k _
      simp only [Function.comp_apply]
      push_cast
      ring

theorem forValues_neg (s b : Int) (hs : s < 0) :
    ∀ (f : Nat) (a : Int),
      -(2 ^ 63) ≤ b + s → a < 2 ^ 63 → -(2 ^ 63) ≤ a →
      (expectedCount a b s).toNat ≤ f →
      forValues f a b s =
        (List.range (expectedCount a b s).toNat).map (fun k : Nat => a + (k : Int) * s) := by
  intro f
  induction f with
  | zero =>
    intro a h1 h2 h3 h6
    have h0 : (expectedCount a b s).toNat = 0 := Nat.le_zero.mp h6
    simp [forValues, h0]
  | succ f ih =>
    intro a h1 h2 h3 h6
    by_cases hc : a < b
    · have hq : (b - a).fdiv s < 0 := by
        rw [fdiv_of_neg hs]
        exact Int.ediv_neg' (by omega) (by omega)
      have h0 : (expectedCount a b s).toNat = 0 := by
        unfold expectedCount
        omega
      rw [h0]
      simp only [forValues]
      rw [if_pos (Or.inr ⟨hc, hs⟩)]
      rfl
    · have hab : b ≤ a := by omega
      have hqnn : 0 ≤ (b - a).fdiv s := by
        rw [fdiv_of_neg hs]
        exact Int.ediv_nonneg (by omega) (by omega)
      have hstep : (b - (a + s)).fdiv s = (b - a).fdiv s - 1 := by
        have he : -(b - (a + s)) = (-(b - a)) + (-1) * (-s) := by ring
        rw [fdiv_of_neg hs, fdiv_of_neg hs, he,
          Int.add_mul_ediv_right _ _ (by omega : -s ≠ 0)]
        ring
      have hcount : (expectedCount a b s).toNat =
          (expectedCount (a + s) b s).toNat + 1 := by
        unfold expectedCount
        rw [hstep]
        omega
      have hwrap : wrap64 (a + s) = a + s := wrap64_id (by omega) (by omega)
      have hrec := ih (a + s) h1 (by omega) (by omega) (by omega)
      simp only [forValues]
      rw [if_neg (by omega), hwrap, hrec, hcount, List.range_succ_eq_map,
        List.map_cons, List.map_map]
      refine List.cons_eq_cons.mpr ⟨by push_cast; ring, ?_⟩
      apply List.map_congr_left
      intro k _
      simp only [Function.comp_apply]
      push_cast
      ring

/-- C3 (amended): for every start `a`, end `b` and non-zero step `s`
whose values stay inside the signed 64-bit range - in particular the
first out-of-range value `b + s` must not overflow - the loop body of
`for i a b s … fend` executes exactly `max(0, floor((b-a)/s) + 1)`
times, the loop variable taking the values `a, a+s, a+2s, …`; without
the overflow proviso the 64-bit wraparound of `fend`'s addition breaks
the count (see the counterexample). -/
theorem c3_for_iteration (a b s : Int) (f : Nat) (hs : s ≠ 0)
    (ha1 : -(2 ^ 63) ≤ a) (ha2 : a < 2 ^ 63)
    (hb1 : -(2 ^ 63) ≤ b) (hb2 : b < 2 ^ 63)
    (hbs1 : -(2 ^ 63) ≤ b + s) (hbs2 : b + s < 2 ^ 63)
    (hf : (expectedCount a b s).toNat ≤ f) :
    forValues f a b s =
      (List.range (expectedCount a b s).toNat).map (fun k : Nat => a + (k : Int) * s) ∧
    (forValues f a b s).length = (expectedCount a b s).toNat := by
  have hmain : forValues f a b s =
      (List.range (expectedCount a b s).toNat).map (fun k : Nat => a + (k : Int) * s) := by
    rcases lt_or_gt_of_ne hs with h | h
    · exact forValues_neg s b h f a hbs1 ha2 ha1 hf
    · exact forValues_pos s b h f a ha1 ha2 hbs2 hf
  refine ⟨hmain, ?_⟩
  rw [hmain]
  simp

/-- C3 as stated is false under the 64-bit wraparound arithmetic the
interpreter uses: at `a = b = 2^63 - 1`, `s = 1` the claimed count is
`1`, yet after one pass `fend` wraps the variable to `-2^63`, which is
still in range, so a second iteration runs (and the loop in fact never
terminates). -/
theorem c3_counterexample :
    expectedCount (2 ^ 63 - 1) (2 ^ 63 - 1) 1 = 1 ∧
      (forValues 2 (2 ^ 63 - 1) (2 ^ 63 - 1) 1).length = 2 := by
  decide

/-- Witness for the amended C3: `for i 1 5 2` runs 3 times with values
1, 3, 5. -/
theorem c3_witness :
    ((1 : Int) ≠ 0 ∧ (expectedCount 1 5 2).toNat ≤ 8) ∧
      (forValues 8 1 5 2 =
        (List.range (expectedCount 1 5 2).toNat).map (fun k : Nat => 1 + (k : Int) * 2) ∧
      (forValues 8 1 5 2).length = (expectedCount 1 5 2).toNat) :=
  ⟨⟨by decide, by decide⟩,
    c3_for_iteration 1 5 2 8 (by decide) (by decide) (by decide) (by decide)
      (by decide) (by decide) (by decide) (by decide)⟩

/-! ## The `loop` command (discdiag.c:3368-3406).

`command_loop` parses an optional stop count into a C `int`
(`stopcount = (int) v`, default `-1` = forever), then increments the
per-call-site loop counter; if `stopcount < 0 || loopcount < stopcount`
it rewinds the cursor to the start of the line and returns
`result_restart`, otherwise it resets the counter to zero and returns
`result_ok`.  `loopStep` is that counter logic at one call site;
`loopRun` is the driver-loop iteration: each pass is one execution of
the commands preceding the `loop` verb followed by one `loopStep`, and
it returns (number of passes, final counter, completed?).  Fuel bounds
the unbounded `loop`-forever case. -/

def loopStep (stop : Int) (count : Int) : Int × Bool :=
  let c := count + 1
  if stop < 0 ∨ c < stop then (c, true) else (0, false)

def loopRun (stop : Int) : Nat → Int → Nat × Int × Bool
  | 0, c => (0, c, false)
  | f + 1, c =>
    let r := loopStep stop c
    if r.2 then
      let q := loopRun stop f r.1
      (q.1 + 1, q.2.1, q.2.2)
    else (1, r.1, true)

theorem toInt32_id {x : Int} (h1 : -(2 ^ 31) ≤ x) (h2 : x < 2 ^ 31) :
    toInt32 x = x := by
  unfold toInt32
  omega

theorem loopRun_pos (N : Int) (hN : 0 < N) :
    ∀ (f : Nat) (c : Int), 0 ≤ c → c < N → (N - c).toNat ≤ f →
      loopRun N f c = ((N - c).toNat, 0, true) := by
  intro f
  induction f with
  | zero =>
    intro c h1 h2 h3
    omega
  | succ f ih =>
    intro c h1 h2 h3
    by_cases hc : c + 1 < N
    · have hrec := ih (c + 1) (by omega) hc (by omega)
      have hstep : loopStep N c = (c + 1, true) := by
        simp only [loopStep]
        rw [if_pos (Or.inr hc)]
      simp [loopRun, hstep, hrec]
      omega
    · have hstep : loopStep N c = (0, false) := by
        simp only [loopStep]
        rw [if_neg (by omega)]
      simp [loopRun, hstep]
      omega

theorem loopRun_forever :
    ∀ (f : Nat) (c : Int), loopRun (-1) f c = (f, c + f, false) := by
  intro f
  induction f with
  | zero => intro c; simp [loopRun]
  | succ f ih =>
    intro c
    have hstep : loopStep (-1) c = (c + 1, true) := by
      simp [loopStep]
    simp [loopRun, hstep, ih]
    omega

/-- C4 (amended): a line ending in `l N` with `0 ≤ N < 2^31` executes
the commands preceding the `l` exactly `max(1, N)` times - `l 0`
behaves like `l 1`, because the counter is incremented before it is
compared - and the per-call-site counter is reset to zero when the
loop completes.  With `N` omitted the stop count is `-1` and the line
restarts for ever (any fuel bound is exhausted without completing),
until a break abandons the line from the driver loop. -/
theorem c4_loop_count :
    (∀ (N : Int) (f : Nat), 0 ≤ N → N < 2 ^ 31 → (max 1 N).toNat ≤ f →
        loopRun (toInt32 N) f 0 = ((max 1 N).toNat, 0, true)) ∧
    (∀ f : Nat, loopRun (-1) f 0 = (f, (f : Int), false)) := by
  constructor
  · intro N f h1 h2 hf
    rw [toInt32_id (by omega) h2]
    by_cases hN : 0 < N
    · have := loopRun_pos N hN f 0 (by omega) (by omega) (by omega)
      rw [this]
      have : (N - 0).toNat = (max 1 N).toNat := by omega
      rw [this]
    · have hN0 : N = 0 := by omega
      subst hN0
      have hf1 : 1 ≤ f := by simpa using hf
      obtain ⟨f', rfl⟩ : ∃ f', f = f' + 1 := ⟨f - 1, by omega⟩
      have hstep : loopStep 0 0 = (0, false) := by
        simp [loopStep]
      have hmax : (max 1 (0 : Int)).toNat = 1 := by decide
      simp [loopRun, hstep, hmax]
  · intro f
    have := loopRun_forever f 0
    simpa using this

/-- C4 as stated is false at `N = 0`: the body has already run once
before the `loop` verb executes, and the counter comparison
`1 < 0` fails, so `l 0` executes the preceding commands once, not zero
times. -/
theorem c4_counterexample :
    loopRun (toInt32 0) 1 0 = (1, 0, true) ∧ (1 : Nat) ≠ 0 := by
  decide

/-- Witness for the amended C4 at `N = 3`, fuel 5. -/
theorem c4_witness :
    ((0 : Int) ≤ 3 ∧ (3 : Int) < 2 ^ 31 ∧ (max 1 (3 : Int)).toNat ≤ 5) ∧
      loopRun (toInt32 3) 5 0 = ((max 1 (3 : Int)).toNat, 0, true) :=
  ⟨⟨by decide, by decide, by decide⟩,
    c4_loop_count.1 3 5 (by decide) (by decide) (by decide)⟩

/-! ## Pattern engine and comparator
(discdiag.c:398-412, 1551-1607, 2725-2839, 2870-3116).

State for `pattn`/`comp`: the PRNG seed, both sector buffers (byte
arrays modelled as total functions `Nat → Nat`), the compare mode and
the miscompare-accounting globals.  `breaks` is the stream of values
the asynchronous break flag will deliver to successive `chkbrk` calls
(empty stream = no break).  Parameters arrive as `ParseEv` events; an
expression may reference the `rand`/`lbarnd` pseudo-variables, so each
parse event carries the transformation it applies to the seed.
`SECSIZE = 512`, `NOSECS = 256` (discdiag.h defaults). -/

inductive compmode where
  | compmode_all
  | compmode_one
  | compmode_fail
deriving DecidableEq, Repr

open compmode

structure DiagSt where
  seed : Nat
  writebuffer : Nat → Nat
  readbuffer : Nat → Nat
  curmode : compmode
  first : Bool
  comp_a : Nat
  comp_b : Nat
  repcnt : Nat
  dataset : Bool
  exiterror : Bool
  breaks : List Bool

inductive ParseEv where
  | absent
  | ok (v : Int) (f : Nat → Nat)
  | err (f : Nat → Nat)

/-- `chkbrk` (discdiag.c:761-773): take and clear the break flag. -/
def chkbrk (st : DiagSt) : Bool × DiagSt :=
  match st.breaks with
  | [] => (false, st)
  | b :: t => (b, { st with breaks := t })

/-- `printcomp` (discdiag.c:1551-1607): report one byte comparison,
folding runs of identical mismatch pairs into a repeat tally.  `nb` is
the read (new) byte, `ob` the expected (old) byte. -/
def printcomp (addr : Nat) (nb ob : Nat) (st : DiagSt) : result × DiagSt :=
  let _ := addr
  if nb ≠ ob then
    let st1 :=
      if st.first ∨ st.curmode = compmode_all then
        if st.dataset ∧ nb = st.comp_a ∧ ob = st.comp_b then
          { st with repcnt := st.repcnt + 1 }
        else { st with repcnt := 0 }
      else st
    let st2 := { st1 with first := false }
    if st2.curmode = compmode_fail then (result_error, st2)
    else
      let st3 := { st2 with comp_a := nb, comp_b := ob, dataset := true }
      let p := chkbrk st3
      if p.1 then
        (if p.2.exiterror then result_exit else result_stop, p.2)
      else (result_ok, p.2)
  else
    let p := chkbrk st
    if p.1 then
      (if p.2.exiterror then result_exit else result_stop, p.2)
    else (result_ok, p.2)

/-- Point update of a byte buffer (one C array-element assignment). -/
def wr (buf : Nat → Nat) (i v : Nat) : Nat → Nat :=
  fun j => if j = i then v else buf j

/-- `pattn cnt` fill loop: `writebuffer[i] = i & 0xff` (discdiag.c:2779). -/
def cntFill : Nat → Nat → (Nat → Nat) → (Nat → Nat)
  | 0, _, buf => buf
  | n + 1, i, buf => cntFill n (i + 1) (wr buf i (i &&& 0xff))

/-- `pattn dwcnt` fill loop: 32-bit big-endian counter `l` every 4
bytes; `l` is an `unsigned long` (32-bit model) (discdiag.c:2781-2792). -/
def dwcntFill : Nat → Nat → Nat → (Nat → Nat) → (Nat → Nat)
  | 0, _, _, buf => buf
  | n + 1, i, l, buf =>
    dwcntFill n (i + 4) ((l + 1) % 2 ^ 32)
      (wr (wr (wr (wr buf i ((l >>> 24) &&& 0xff))
        (i + 1) ((l >>> 16) &&& 0xff))
        (i + 2) ((l >>> 8) &&& 0xff))
        (i + 3) (l &&& 0xff))

/-- `pattn val` fill loop: the 32-bit big-endian low word of the fixed
value (unsigned image `vu`) every 4 bytes (discdiag.c:2794-2803). -/
def valFill : Nat → Nat → Nat → (Nat → Nat) → (Nat → Nat)
  | 0, _, _, buf => buf
  | n + 1, i, vu, buf =>
    valFill n (i + 4) vu
      (wr (wr (wr (wr buf i ((vu >>> 24) &&& 0xff))
        (i + 1) ((vu >>> 16) &&& 0xff))
        (i + 2) ((vu >>> 8) &&& 0xff))
        (i + 3) (vu &&& 0xff))

/-- One sector of `pattn rand`: 512 low bytes of successive `rand64`
samples (discdiag.c:2811). -/
def randSector : Nat → Nat → Nat → (Nat → Nat) → Nat × (Nat → Nat)
  | 0, _, sd, buf => (sd, buf)
  | n + 1, off, sd, buf =>
    let p := rand64 sd
    randSector n (off + 1) p.2 (wr buf off (p.1 &&& 0xff))

/-- `pattn rand` fill loop: the seed is reset to 42 at the start of
every sector (discdiag.c:2805-2813). -/
def randFill : Nat → Nat → Nat → (Nat → Nat) → Nat × (Nat → Nat)
  | 0, _, sd, buf => (sd, buf)
  | n + 1, s, _, buf =>
    let p := randSector 512 (s * 512) 42 buf
    randFill n (s + 1) p.1 p.2

/-- `pattn lba` fill loop: the 32-bit big-endian low word of the
incrementing 64-bit value at the first 4 bytes of each sector
(discdiag.c:2815-2825). -/
def lbaFill : Nat → Nat → Nat → (Nat → Nat) → (Nat → Nat)
  | 0, _, _, buf => buf
  | n + 1, i, vu, buf =>
    lbaFill n (i + 512) ((vu + 1) % 2 ^ 64)
      (wr (wr (wr (wr buf i ((vu >>> 24) &&& 0xff))
        (i + 1) ((vu >>> 16) &&& 0xff))
        (i + 2) ((vu >>> 8) &&& 0xff))
        (i + 3) (vu &&& 0xff))

/-- Number of byte positions `i` with `0 <= i < SECSIZE * len` for a
sector count parsed as a `long long`: the product wraps in 64 bits and
a non-positive bound yields an empty loop. -/
def byteCount (len : Int) : Nat := (wrap64 (512 * len)).toNat

/-- `pattn` pattern dispatch and final seed restore
(discdiag.c:2777-2837).  `seeds` is the seed saved on entry. -/
def pattnDispatch (pat : String) (vu : Nat) (len : Int) (seeds : Nat)
    (st : DiagSt) : result × DiagSt :=
  if pat = "cnt" then
    (result_ok,
      { st with writebuffer := cntFill (byteCount len) 0 st.writebuffer,
                seed := seeds })
  else if pat = "dwcnt" then
    (result_ok,
      { st with
          writebuffer := dwcntFill (byteCount len / 4) 0 0 st.writebuffer,
          seed := seeds })
  else if pat = "val" then
    (result_ok,
      { st with
          writebuffer := valFill (byteCount len / 4) 0 vu st.writebuffer,
          seed := seeds })
  else if pat = "rand" then
    let p := randFill len.toNat 0 st.seed st.writebuffer
    (result_ok, { st with writebuffer := p.2, seed := seeds })
  else if pat = "lba" then
    (result_ok,
      { st with
          writebuffer := lbaFill (byteCount len / 512) 0 vu st.writebuffer,
          seed := seeds })
  else (result_error, { st with seed := seeds })

/-- `command_pattn` (discdiag.c:2725-2839): save the seed, reset it to
42, parse up to three parameters (defaults `cnt`, `0`, full buffer),
fill the write buffer, and restore the seed on every return path. -/
def command_pattn (patP : Option String) (valP lenP : ParseEv)
    (st : DiagSt) : result × DiagSt :=
  let seeds := st.seed
  let st := { st with seed := 42 }
  match patP with
  | none => pattnDispatch ("cnt") (toUnsigned64 0) 256 seeds st
  | some pat =>
    match valP with
    | .absent => pattnDispatch pat (toUnsigned64 0) 256 seeds st
    | .err f =>
      let stf := { st with seed := f st.seed }
      (result_error, { stf with seed := seeds })
    | .ok v f =>
      let st := { st with seed := f st.seed }
      match lenP with
      | .absent => pattnDispatch pat (toUnsigned64 v) 256 seeds st
      | .err g =>
        let stg := { st with seed := g st.seed }
        (result_error, { stg with seed := seeds })
      | .ok w g =>
        pattnDispatch pat (toUnsigned64 v) w seeds { st with seed := g st.seed }

/-- `comp cnt` loop (discdiag.c:2925-2938). -/
def compCnt : Nat → Nat → DiagSt → result × DiagSt
  | 0, _, st => (result_ok, st)
  | n + 1, i, st =>
    let p := printcomp i (st.readbuffer i) (i &&& 0xff) st
    if p.1 = result_ok then compCnt n (i + 1) p.2 else p

/-- `comp dwcnt` loop (discdiag.c:2940-2980). -/
def compDwcnt : Nat → Nat → Nat → DiagSt → result × DiagSt
  | 0, _, _, st => (result_ok, st)
  | n + 1, i, l, st =>
    let p1 := printcomp i (st.readbuffer i) ((l >>> 24) &&& 0xff) st
    if p1.1 ≠ result_ok then p1 else
    let p2 := printcomp (i + 1) (p1.2.readbuffer (i + 1))
      ((l >>> 16) &&& 0xff) p1.2
    if p2.1 ≠ result_ok then p2 else
    let p3 := printcomp (i + 2) (p2.2.readbuffer (i + 2))
      ((l >>> 8) &&& 0xff) p2.2
    if p3.1 ≠ result_ok then p3 else
    let p4 := printcomp (i + 3) (p3.2.readbuffer (i + 3)) (l &&& 0xff) p3.2
    if p4.1 ≠ result_ok then p4 else
    compDwcnt n (i + 4) ((l + 1) % 2 ^ 32) p4.2

/-- `comp val` loop (discdiag.c:2982-3019). -/
def compVal : Nat → Nat → Nat → DiagSt → result × DiagSt
  | 0, _, _, st => (result_ok, st)
  | n + 1, i, vu, st =>
    let p1 := printcomp i (st.readbuffer i) ((vu >>> 24) &&& 0xff) st
    if p1.1 ≠ result_ok then p1 else
    let p2 := printcomp (i + 1) (p1.2.readbuffer (i + 1))
      ((vu >>> 16) &&& 0xff) p1.2
    if p2.1 ≠ result_ok then p2 else
    let p3 := printcomp (i + 2) (p2.2.readbuffer (i + 2))
      ((vu >>> 8) &&& 0xff) p2.2
    if p3.1 ≠ result_ok then p3 else
    let p4 := printcomp (i + 3) (p3.2.readbuffer (i + 3)) (vu &&& 0xff) p3.2
    if p4.1 ≠ result_ok then p4 else
    compVal n (i + 4) vu p4.2

/-- One sector of `comp rand` (discdiag.c:3027-3038); the reported
address is the in-sector offset `i`, as in the source. -/
def compRandSector : Nat → Nat → Nat → DiagSt → result × DiagSt
  | 0, _, _, st => (result_ok, st)
  | n + 1, base, i, st =>
    let q := rand64 st.seed
    let st0 := { st with seed := q.2 }
    let p := printcomp i (st0.readbuffer (base + i)) (q.1 &&& 0xff) st0
    if p.1 = result_ok then compRandSector n base (i + 1) p.2 else p

/-- `comp rand` loop: seed reset to 42 per sector (discdiag.c:3021-3040). -/
def compRand : Nat → Nat → DiagSt → result × DiagSt
  | 0, _, st => (result_ok, st)
  | n + 1, s, st =>
    let p := compRandSector 512 (s * 512) 0 { st with seed := 42 }
    if p.1 = result_ok then compRand n (s + 1) p.2 else p

/-- `comp lba` loop (discdiag.c:3042-3080). -/
def compLba : Nat → Nat → Nat → DiagSt → result × DiagSt
  | 0, _, _, st => (result_ok, st)
  | n + 1, i, vu, st =>
    let p1 := printcomp i (st.readbuffer i) ((vu >>> 24) &&& 0xff) st
    if p1.1 ≠ result_ok then p1 else
    let p2 := printcomp (i + 1) (p1.2.readbuffer (i + 1))
      ((vu >>> 16) &&& 0xff) p1.2
    if p2.1 ≠ result_ok then p2 else
    let p3 := printcomp (i + 2) (p2.2.readbuffer (i + 2))
      ((vu >>> 8) &&& 0xff) p2.2
    if p3.1 ≠ result_ok then p3 else
    let p4 := printcomp (i + 3) (p3.2.readbuffer (i + 3)) (vu &&& 0xff) p3.2
    if p4.1 ≠ result_ok then p4 else
    compLba n (i + 512) ((vu + 1) % 2 ^ 64) p4.2

/-- `comp buffs` loop (discdiag.c:3082-3095). -/
def compBuffs : Nat → Nat → DiagSt → result × DiagSt
  | 0, _, st => (result_ok, st)
  | n + 1, i, st =>
    let p := printcomp i (st.readbuffer i) (st.writebuffer i) st
    if p.1 = result_ok then compBuffs n (i + 1) p.2 else p

/-- Exit of `command_comp`: on a non-ok result restore the seed and
return; on ok, flush a pending repeat tally (reset `repcnt`), then
restore the seed (discdiag.c:3105-3114). -/
def finishComp (seeds : Nat) (p : result × DiagSt) : result × DiagSt :=
  if p.1 ≠ result_ok then (p.1, { p.2 with seed := seeds })
  else
    let st1 := if p.2.repcnt ≠ 0 then { p.2 with repcnt := 0 } else p.2
    (result_ok, { st1 with seed := seeds })

/-- `comp` pattern dispatch (discdiag.c:2925-3116). -/
def compDispatch (pat : String) (vu : Nat) (len : Int) (seeds : Nat)
    (st : DiagSt) : result × DiagSt :=
  if pat = "cnt" then finishComp seeds (compCnt (byteCount len) 0 st)
  else if pat = "dwcnt" then
    finishComp seeds (compDwcnt (byteCount len / 4) 0 0 st)
  else if pat = "val" then
    finishComp seeds (compVal (byteCount len / 4) 0 vu st)
  else if pat = "rand" then finishComp seeds (compRand len.toNat 0 st)
  else if pat = "lba" then
    finishComp seeds (compLba (byteCount len / 512) 0 vu st)
  else if pat = "buffs" then finishComp seeds (compBuffs (byteCount len) 0 st)
  else (result_error, { st with seed := seeds })

/-- `command_comp` (discdiag.c:2870-3116): save the seed, reset it to
42, reset the miscompare accounting (`first`, `dataset`, `repcnt`),
parse up to three parameters (defaults `cnt`, `0`, full buffer), run
the comparison, flush any pending tally on success, and restore the
seed on every return path. -/
def command_comp (patP : Option String) (valP lenP : ParseEv)
    (st : DiagSt) : result × DiagSt :=
  let seeds := st.seed
  let st := { st with seed := 42, first := true, dataset := false,
                      repcnt := 0 }
  match patP with
  | none => compDispatch ("cnt") (toUnsigned64 0) 256 seeds st
  | some pat =>
    match valP with
    | .absent => compDispatch pat (toUnsigned64 0) 256 seeds st
    | .err f =>
      let stf := { st with seed := f st.seed }
      (result_error, { stf with seed := seeds })
    | .ok v f =>
      let st := { st with seed := f st.seed }
      match lenP with
      | .absent => compDispatch pat (toUnsigned64 v) 256 seeds st
      | .err g =>
        let stg := { st with seed := g st.seed }
        (result_error, { stg with seed := seeds })
      | .ok w g =>
        compDispatch pat (toUnsigned64 v) w seeds { st with seed := g st.seed }

theorem pattnDispatch_seed (pat : String) (vu : Nat) (len : Int)
    (seeds : Nat) (st : DiagSt) :
    (pattnDispatch pat vu len seeds st).2.seed = seeds := by
  unfold pattnDispatch
  split_ifs <;> rfl

theorem finishComp_seed (seeds : Nat) (p : result × DiagSt) :
    (finishComp seeds p).2.seed = seeds := by
  unfold finishComp
  split_ifs <;> rfl

theorem compDispatch_seed (pat : String) (vu : Nat) (len : Int)
    (seeds : Nat) (st : DiagSt) :
    (compDispatch pat vu len seeds st).2.seed = seeds := by
  unfold compDispatch
  split_ifs <;> first | apply finishComp_seed | rfl

/-- C6: every `pattn` and every `comp` invocation leaves the PRNG seed
exactly as it found it, on every return path - parameter parse errors
(even ones whose expressions consumed random numbers), bad pattern
names, miscompare aborts, break aborts and successful completion
alike: the saved seed is written back at every exit. -/
theorem c6_seed_preserved :
    (∀ (patP : Option String) (valP lenP : ParseEv) (st : DiagSt),
        (command_pattn patP valP lenP st).2.seed = st.seed) ∧
    (∀ (patP : Option String) (valP lenP : ParseEv) (st : DiagSt),
        (command_comp patP valP lenP st).2.seed = st.seed) := by
  constructor
  · intro patP valP lenP st
    cases patP with
    | none => exact pattnDispatch_seed _ _ _ _ _
    | some pat =>
      cases valP with
      | absent => exact pattnDispatch_seed _ _ _ _ _
      | err f => rfl
      | ok v f =>
        cases lenP with
        | absent => exact pattnDispatch_seed _ _ _ _ _
        | err g => rfl
        | ok w g => exact pattnDispatch_seed _ _ _ _ _
  · intro patP valP lenP st
    cases patP with
    | none => exact compDispatch_seed _ _ _ _ _
    | some pat =>
      cases valP with
      | absent => exact compDispatch_seed _ _ _ _ _
      | err f => rfl
      | ok v f =>
        cases lenP with
        | absent => exact compDispatch_seed _ _ _ _ _
        | err g => rfl
        | ok w g => exact compDispatch_seed _ _ _ _ _

theorem finishComp_repcnt (seeds : Nat) (p : result × DiagSt)
    (h : (finishComp seeds p).1 = result_ok) :
    (finishComp seeds p).2.repcnt = 0 := by
  unfold finishComp at h ⊢
  split_ifs at h ⊢ with h1 h2
  · exact absurd h h1
  · rfl
  · simpa using h2

theorem compDispatch_ok_repcnt (pat : String) (vu : Nat) (len : Int)
    (seeds : Nat) (st : DiagSt)
    (h : (compDispatch pat vu len seeds st).1 = result_ok) :
    (compDispatch pat vu len seeds st).2.repcnt = 0 := by
  unfold compDispatch at h ⊢
  split_ifs at h ⊢ <;>
    first
      | exact finishComp_repcnt _ _ h
      | exact absurd h (by decide)

/-- C10: `comp` resets the miscompare accounting on entry - the
behaviour of a `comp` invocation is independent of the incoming
`first`, `dataset` and `repcnt` globals - and every invocation that
returns `result_ok` leaves the repeat tally flushed (`repcnt = 0`), so
the folding of consecutive identical mismatches never spans two `comp`
commands. -/
theorem c10_comp_accounting :
    (∀ (patP : Option String) (valP lenP : ParseEv) (st : DiagSt)
        (a b : Bool) (c : Nat),
        command_comp patP valP lenP
            { st with first := a, dataset := b, repcnt := c } =
          command_comp patP valP lenP st) ∧
    (∀ (patP : Option String) (valP lenP : ParseEv) (st : DiagSt),
        (command_comp patP valP lenP st).1 = result_ok →
        (command_comp patP valP lenP st).2.repcnt = 0) := by
  constructor
  · intro patP valP lenP st a b c
    rfl
  · intro patP valP lenP st h
    cases patP with
    | none => exact compDispatch_ok_repcnt _ _ _ _ _ h
    | some pat =>
      cases valP with
      | absent => exact compDispatch_ok_repcnt _ _ _ _ _ h
      | err f => exact absurd h (by simp [command_comp])
      | ok v f =>
        cases lenP with
        | absent => exact compDispatch_ok_repcnt _ _ _ _ _ h
        | err g => exact absurd h (by simp [command_comp])
        | ok w g => exact compDispatch_ok_repcnt _ _ _ _ _ h

/-- A concrete quiescent state for witnesses. -/
def sampleDiagSt : DiagSt :=
  { seed := 1, writebuffer := fun _ => 0, readbuffer := fun _ => 0,
    curmode := compmode_one, first := true, comp_a := 0, comp_b := 0,
    repcnt := 0, dataset := false, exiterror := false, breaks := [] }

/-- Witness for C10 part 2 at a concrete ok-returning `comp cnt 0 0`. -/
theorem c10_witness :
    (command_comp (some ("cnt")) (ParseEv.ok 0 id) (ParseEv.ok 0 id)
        sampleDiagSt).1 = result_ok ∧
      (command_comp (some ("cnt")) (ParseEv.ok 0 id) (ParseEv.ok 0 id)
        sampleDiagSt).2.repcnt = 0 :=
  ⟨rfl, c10_comp_accounting.2 (some ("cnt")) (ParseEv.ok 0 id)
    (ParseEv.ok 0 id) sampleDiagSt rfl⟩

theorem shift_and_ff (x m : Nat) : (x >>> m) &&& 0xff = x / 2 ^ m % 2 ^ 8 := by
  rw [Nat.shiftRight_eq_div_pow]
  have h := Nat.and_pow_two_sub_one_eq_mod (x / 2 ^ m) 8
  norm_num at h ⊢
  exact h

theorem and_ff (x : Nat) : x &&& 0xff = x % 2 ^ 8 := by
  have h := Nat.and_pow_two_sub_one_eq_mod x 8
  norm_num at h ⊢
  exact h

theorem wr_eval (buf : Nat → Nat) (i v j : Nat) :
    wr buf i v j = if j = i then v else buf j := rfl

/-- Effect of the `lba` fill loop starting at sector `k` with value
image `vu`: each processed sector gets the big-endian low 32-bit word
of the running value in its first 4 bytes, and no other byte of the
buffer is touched. -/
theorem lbaFill_spec :
    ∀ (n k vu : Nat) (buf : Nat → Nat), vu < 2 ^ 64 →
      (∀ j : Nat, j < n →
        lbaFill n (512 * k) vu buf (512 * (k + j)) =
            (vu + j) % 2 ^ 64 / 2 ^ 24 % 2 ^ 8 ∧
          lbaFill n (512 * k) vu buf (512 * (k + j) + 1) =
            (vu + j) % 2 ^ 64 / 2 ^ 16 % 2 ^ 8 ∧
          lbaFill n (512 * k) vu buf (512 * (k + j) + 2) =
            (vu + j) % 2 ^ 64 / 2 ^ 8 % 2 ^ 8 ∧
          lbaFill n (512 * k) vu buf (512 * (k + j) + 3) =
            (vu + j) % 2 ^ 64 % 2 ^ 8) ∧
      (∀ i : Nat, i < 512 * k ∨ 512 * (k + n) ≤ i ∨ 4 ≤ i % 512 →
        lbaFill n (512 * k) vu buf i = buf i) := by
  intro n
  induction n with
  | zero =>
    intro k vu buf hvu
    exact ⟨fun j hj => absurd hj (by omega), fun i _ => rfl⟩
  | succ n ih =>
    intro k vu buf hvu
    have hstep : lbaFill (n + 1) (512 * k) vu buf =
        lbaFill n (512 * (k + 1)) ((vu + 1) % 2 ^ 64)
          (wr (wr (wr (wr buf (512 * k) ((vu >>> 24) &&& 0xff))
            (512 * k + 1) ((vu >>> 16) &&& 0xff))
            (512 * k + 2) ((vu >>> 8) &&& 0xff))
            (512 * k + 3) (vu &&& 0xff)) := by
      show lbaFill (n + 1) (512 * k) vu buf = _
      rw [show 512 * (k + 1) = 512 * k + 512 by ring]
      rfl
    obtain ⟨ihbytes, ihout⟩ :=
      ih (k + 1) ((vu + 1) % 2 ^ 64)
        (wr (wr (wr (wr buf (512 * k) ((vu >>> 24) &&& 0xff))
          (512 * k + 1) ((vu >>> 16) &&& 0xff))
          (512 * k + 2) ((vu >>> 8) &&& 0xff))
          (512 * k + 3) (vu &&& 0xff))
        (by omega)
    constructor
    · intro j hj
      cases j with
      | zero =>
        have hv0 : (vu + 0) % 2 ^ 64 = vu := by omega
        rw [hstep]
        refine ⟨?_, ?_, ?_, ?_⟩ <;>
          · rw [ihout _ (by omega)]
            simp only [wr_eval]
            rw [hv0]
            first
              | rw [if_neg (by omega), if_neg (by omega), if_neg (by omega),
                  if_pos (by omega), shift_and_ff]
              | rw [if_neg (by omega), if_neg (by omega),
                  if_pos (by omega), shift_and_ff]
              | rw [if_neg (by omega), if_pos (by omega), shift_and_ff]
              | rw [if_pos (by omega), and_ff]
      | succ j =>
        have hadd : 512 * (k + (j + 1)) = 512 * ((k + 1) + j) := by ring
        have hvadd : ((vu + 1) % 2 ^ 64 + j) % 2 ^ 64 =
            (vu + (j + 1)) % 2 ^ 64 := by omega
        obtain ⟨hb0, hb1, hb2, hb3⟩ := ihbytes j (by omega)
        rw [hstep, hadd]
        rw [hvadd] at hb0 hb1 hb2 hb3
        exact ⟨hb0, hb1, hb2, hb3⟩
    · intro i hi
      rw [hstep]
      rw [ihout i (by omega)]
      simp only [wr_eval]
      rw [if_neg (by omega), if_neg (by omega), if_neg (by omega),
        if_neg (by omega)]

/-- C7: `pattn lba v n` (with `0 <= n <= bufsiz`) writes, for each
sector `s < n`, exactly the 4 bytes at offset `512*s` of the write
buffer with the 32-bit big-endian encoding of `v + s` (bytes of the
unsigned 64-bit image of `v + s`, most significant of the low word
first), and leaves the other 508 bytes of every sector and all bytes
beyond `512*n` unchanged.  The read buffer and the rest of the state
(seed apart, which is saved and restored) are not touched by this
path. -/
theorem c7_pattn_lba (v len : Int) (fv gv : Nat → Nat) (st : DiagSt)
    (h0 : 0 ≤ len) (h1 : len ≤ 256) :
    (command_pattn (some ("lba")) (ParseEv.ok v fv) (ParseEv.ok len gv)
        st).2.writebuffer =
      lbaFill len.toNat 0 (toUnsigned64 v) st.writebuffer ∧
    (∀ s : Nat, s < len.toNat →
      lbaFill len.toNat 0 (toUnsigned64 v) st.writebuffer (512 * s) =
          (toUnsigned64 v + s) % 2 ^ 64 / 2 ^ 24 % 2 ^ 8 ∧
        lbaFill len.toNat 0 (toUnsigned64 v) st.writebuffer (512 * s + 1) =
          (toUnsigned64 v + s) % 2 ^ 64 / 2 ^ 16 % 2 ^ 8 ∧
        lbaFill len.toNat 0 (toUnsigned64 v) st.writebuffer (512 * s + 2) =
          (toUnsigned64 v + s) % 2 ^ 64 / 2 ^ 8 % 2 ^ 8 ∧
        lbaFill len.toNat 0 (toUnsigned64 v) st.writebuffer (512 * s + 3) =
          (toUnsigned64 v + s) % 2 ^ 64 % 2 ^ 8) ∧
    (∀ i : Nat, 512 * len.toNat ≤ i ∨ 4 ≤ i % 512 →
      lbaFill len.toNat 0 (toUnsigned64 v) st.writebuffer i =
        st.writebuffer i) ∧
    (command_pattn (some ("lba")) (ParseEv.ok v fv) (ParseEv.ok len gv)
        st).2.readbuffer = st.readbuffer := by
  have hcount : byteCount len / 512 = len.toNat := by
    have hw : wrap64 (512 * len) = 512 * len :=
      wrap64_id (by omega) (by omega)
    unfold byteCount
    rw [hw]
    omega
  have hvu : toUnsigned64 v < 2 ^ 64 := by
    unfold toUnsigned64
    omega
  have hcmd : (command_pattn (some ("lba")) (ParseEv.ok v fv)
      (ParseEv.ok len gv) st).2 =
      { { st with seed := gv (fv 42) } with
          writebuffer :=
            lbaFill (byteCount len / 512) 0 (toUnsigned64 v)
              st.writebuffer,
          seed := st.seed } := by
    simp only [command_pattn, pattnDispatch]
    rw [if_neg (by decide), if_neg (by decide), if_neg (by decide),
      if_neg (by decide), if_pos trivial]
  obtain ⟨hbytes, hout⟩ :=
    lbaFill_spec len.toNat 0 (toUnsigned64 v) st.writebuffer hvu
  refine ⟨?_, ?_, ?_, ?_⟩
  · rw [hcmd, hcount]
  · intro s hs
    have h := hbytes s hs
    simpa using h
  · intro i hi
    have h := hout i (by omega)
    simpa using h
  · rw [hcmd]

/-- Witness for C7 at `v = 5`, `n = 1` on the quiescent sample state. -/
theorem c7_witness :
    ((0 : Int) ≤ 1 ∧ (1 : Int) ≤ 256) ∧
      lbaFill (1 : Int).toNat 0 (toUnsigned64 5)
          sampleDiagSt.writebuffer (512 * 0 + 3) =
        (toUnsigned64 5 + 0) % 2 ^ 64 % 2 ^ 8 ∧
      lbaFill (1 : Int).toNat 0 (toUnsigned64 5)
          sampleDiagSt.writebuffer 4 = sampleDiagSt.writebuffer 4 :=
  ⟨⟨by decide, by decide⟩,
    ((c7_pattn_lba 5 1 id id sampleDiagSt (by decide) (by decide)).2.1 0
        (by decide)).2.2.2,
    (c7_pattn_lba 5 1 id id sampleDiagSt (by decide) (by decide)).2.2.1 4
      (Or.inr (by decide))⟩

/-! ## Lexer and expression evaluator
(discdiag.c:1062-1075, 1187-1250, 1269-1540).

The cursor is a `List Char`.  `getword` drops leading spaces and takes
the maximal run of alphanumerics plus `?` and `.`.  `getvalF` is
`getval`: pseudo-variable table first (in table order), then the user
variables, then `strtoul(w, NULL, 0)` for a leading digit.  The
recursive-descent evaluator `pexp` carries the grammar level (and the
left accumulator of the two operator loops) as an argument and a fuel
counter decremented on every nested call, so that it is structurally
recursive and computable; `getparam` is `pexp f .pparam`, `getadd` is
`pexp f .padd`, `getmult` is `pexp f .pmult`, `getfact` is
`pexp f .pfact`.  Arithmetic is 64-bit two's-complement (`wrap64`,
`cdiv`, `cmod`).  An `Except.error` carries the state at the failure
(the C handlers print a message and return `result_error`). -/

structure EvalSt where
  seed : Nat
  drivesize : Int
  vars : List (List Char × Int)
deriving DecidableEq, Repr

def wordChar (c : Char) : Bool := c.isAlphanum || c == '?' || c == '.'

/-- `getword` (discdiag.c:1062-1075). -/
def getword (l : List Char) : List Char × List Char :=
  let l1 := l.dropWhile (fun c => c == ' ')
  (l1.takeWhile wordChar, l1.dropWhile wordChar)

def decDigit? (c : Char) : Option Nat :=
  if c.isDigit then some (c.toNat - 48) else none

def octDigit? (c : Char) : Option Nat :=
  if '0' ≤ c ∧ c ≤ '7' then some (c.toNat - 48) else none

def hexDigit? (c : Char) : Option Nat :=
  if c.isDigit then some (c.toNat - 48)
  else if 'a' ≤ c ∧ c ≤ 'f' then some (c.toNat - 87)
  else if 'A' ≤ c ∧ c ≤ 'F' then some (c.toNat - 55)
  else none

def digitsVal : (Char → Option Nat) → Nat → List Char → Nat → Nat
  | _, _, [], acc => acc
  | dv, base, c :: t, acc =>
    match dv c with
    | none => acc
    | some d => digitsVal dv base t (acc * base + d)

/-- `strtoul(w, NULL, 0)`: base detection by prefix (`0x` hex, leading
`0` octal, else decimal), parse the longest valid digit run, saturate
at `ULONG_MAX` (64-bit `unsigned long`). -/
def strtoul0 (w : List Char) : Nat :=
  let v :=
    match w with
    | '0' :: 'x' :: t => digitsVal hexDigit? 16 t 0
    | '0' :: 'X' :: t => digitsVal hexDigit? 16 t 0
    | '0' :: t => digitsVal octDigit? 8 t 0
    | t => digitsVal decDigit? 10 t 0
  min v (2 ^ 64 - 1)

/-- The C cast `(long long)` of a 64-bit unsigned value. -/
def toSigned64 (n : Nat) : Int :=
  if n < 2 ^ 63 then (n : Int) else (n : Int) - 2 ^ 64

/-- `fndvar` (discdiag.c:1111-1136): first match from the stack top. -/
def fndvarE (vars : List (List Char × Int)) (w : List Char) : Option Int :=
  match vars with
  | [] => none
  | p :: t => if p.1 = w then some p.2 else fndvarE t w

/-- Result of an evaluator step: an error (with the state at failure)
or a value, the rest of the line, and the updated state. -/
abbrev EvalRes := Except EvalSt (Int × List Char × EvalSt)

/-- `getval` (discdiag.c:1187-1250).  The pseudo-variable handlers
(discdiag.c:2136-2257) are inlined in table order; `lbarnd` computes
`rand64() % drivesize` (with a zero drive size this is division by
zero in C - undefined; the model follows Lean's `tmod x 0 = x`). -/
def getvalF (l : List Char) (st : EvalSt) : EvalRes :=
  let g := getword l
  let w := g.1
  let l' := g.2
  match w with
  | [] => .error st
  | c :: _ =>
    if c.isAlpha then
      if w = ("drvsiz").toList then .ok (st.drivesize, l', st)
      else if w = ("rand").toList then
        let p := rand64 st.seed
        .ok ((p.1 : Int), l', { st with seed := p.2 })
      else if w = ("lbarnd").toList then
        let p := rand64 st.seed
        .ok (cmod (p.1 : Int) st.drivesize, l', { st with seed := p.2 })
      else if w = ("secsiz").toList then .ok (512, l', st)
      else if w = ("bufsiz").toList then .ok (256, l', st)
      else
        match fndvarE st.vars w with
        | some v => .ok (v, l', st)
        | none => .error st
    else if c.isDigit then .ok (toSigned64 (strtoul0 w), l', st)
    else .error st

/-- Grammar level of the recursive-descent evaluator; the loop levels
carry the left-hand accumulator. -/
inductive PLevel where
  | pparam
  | padd
  | paddl (acc : Int)
  | pmult
  | pmultl (acc : Int)
  | pfact

/-- The expression evaluator (discdiag.c:1269-1540), fuel-structural.
Notable source behaviours kept: `getfact` tests `+`/`-`/`(` before
`getval` (a space where an operand is expected reaches `getval`, whose
`getword` skips it); the `getadd` loop condition also accepts `/` but
its body consumes nothing for it (an unreachable C infinite loop,
modelled by fuel exhaustion); a `!` not followed by `=` rewinds the
cursor one character; division and modulus by zero are hard errors. -/
def pexp : Nat → PLevel → List Char → EvalSt → EvalRes
  | 0, _, _, st => .error st
  | f + 1, lvl, l, st =>
    match lvl with
    | .pfact =>
      match l with
      | '+' :: t =>
        match pexp f .pfact t st with
        | .ok (v, l', st') => .ok (v, l', st')
        | .error st' => .error st'
      | '-' :: t =>
        match pexp f .pfact t st with
        | .ok (v, l', st') => .ok (wrap64 (-v), l', st')
        | .error st' => .error st'
      | '(' :: t =>
        match pexp f .pparam t st with
        | .ok (v, l', st') =>
          match l'.dropWhile (fun c => c == ' ') with
          | ')' :: t2 => .ok (v, t2, st')
          | _ => .error st'
        | .error st' => .error st'
      | _ => getvalF l st
    | .pmult =>
      match pexp f .pfact l st with
      | .ok (v, l', st') => pexp f (.pmultl v) l' st'
      | .error st' => .error st'
    | .pmultl acc =>
      match l with
      | '*' :: t =>
        match pexp f .pfact t st with
        | .ok (v, l', st') => pexp f (.pmultl (wrap64 (acc * v))) l' st'
        | .error st' => .error st'
      | '/' :: t =>
        match pexp f .pfact t st with
        | .ok (v, l', st') =>
          if v = 0 then .error st' else pexp f (.pmultl (cdiv acc v)) l' st'
        | .error st' => .error st'
      | '%' :: t =>
        match pexp f .pfact t st with
        | .ok (v, l', st') =>
          if v = 0 then .error st' else pexp f (.pmultl (cmod acc v)) l' st'
        | .error st' => .error st'
      | _ => .ok (acc, l, st)
    | .padd =>
      match pexp f .pmult l st with
      | .ok (v, l', st') => pexp f (.paddl v) l' st'
      | .error st' => .error st'
    | .paddl acc =>
      match l with
      | '+' :: t =>
        match pexp f .pmult t st with
        | .ok (v, l', st') => pexp f (.paddl (wrap64 (acc + v))) l' st'
        | .error st' => .error st'
      | '-' :: t =>
        match pexp f .pmult t st with
        | .ok (v, l', st') => pexp f (.paddl (wrap64 (acc - v))) l' st'
        | .error st' => .error st'
      | '/' :: t => pexp f (.paddl acc) ('/' :: t) st
      | _ => .ok (acc, l, st)
    | .pparam =>
      match pexp f .padd l st with
      | .ok (v, l1, st1) =>
        match l1 with
        | '>' :: '=' :: t2 =>
          match pexp f .padd t2 st1 with
          | .ok (w, l2, st2) => .ok (if v ≥ w then 1 else 0, l2, st2)
          | .error st2 => .error st2
        | '>' :: t =>
          match pexp f .padd t st1 with
          | .ok (w, l2, st2) => .ok (if v > w then 1 else 0, l2, st2)
          | .error st2 => .error st2
        | '<' :: '=' :: t2 =>
          match pexp f .padd t2 st1 with
          | .ok (w, l2, st2) => .ok (if v ≤ w then 1 else 0, l2, st2)
          | .error st2 => .error st2
        | '<' :: t =>
          match pexp f .padd t st1 with
          | .ok (w, l2, st2) => .ok (if v < w then 1 else 0, l2, st2)
          | .error st2 => .error st2
        | '=' :: t =>
          match pexp f .padd t st1 with
          | .ok (w, l2, st2) => .ok (if v = w then 1 else 0, l2, st2)
          | .error st2 => .error st2
        | '!' :: '=' :: t2 =>
          match pexp f .padd t2 st1 with
          | .ok (w, l2, st2) => .ok (if v ≠ w then 1 else 0, l2, st2)
          | .error st2 => .error st2
        | '!' :: t => .ok (v, '!' :: t, st1)
        | _ => .ok (v, l1, st1)
      | .error st1 => .error st1

theorem dropWhile_spaces (k : Nat) (l : List Char) :
    (List.replicate k ' ' ++ l).dropWhile (fun c => c == ' ') =
      l.dropWhile (fun c => c == ' ') := by
  induction k with
  | zero => rfl
  | succ k ih => simpa [List.replicate] using ih

theorem getword_spaces (k : Nat) (l : List Char) :
    getword (List.replicate k ' ' ++ l) = getword l := by
  unfold getword
  rw [dropWhile_spaces]

/-- A successful `pexp` call never returns at fuel 0. -/
theorem pexp_zero (lvl : PLevel) (l : List Char) (st : EvalSt) (x : Int × List Char × EvalSt) :
    pexp 0 lvl l st ≠ .ok x := by
  simp [pexp]

theorem pexp_param_step (f : Nat) (l : List Char) (st : EvalSt) :
    pexp (f + 1) .pparam l st =
      (match pexp f .padd l st with
       | .ok (v, l1, st1) =>
         match l1 with
         | '>' :: '=' :: t2 =>
           (match pexp f .padd t2 st1 with
            | .ok (w, l2, st2) => .ok (if v ≥ w then 1 else 0, l2, st2)
            | .error st2 => .error st2)
         | '>' :: t =>
           (match pexp f .padd t st1 with
            | .ok (w, l2, st2) => .ok (if v > w then 1 else 0, l2, st2)
            | .error st2 => .error st2)
         | '<' :: '=' :: t2 =>
           (match pexp f .padd t2 st1 with
            | .ok (w, l2, st2) => .ok (if v ≤ w then 1 else 0, l2, st2)
            | .error st2 => .error st2)
         | '<' :: t =>
           (match pexp f .padd t st1 with
            | .ok (w, l2, st2) => .ok (if v < w then 1 else 0, l2, st2)
            | .error st2 => .error st2)
         | '=' :: t =>
           (match pexp f .padd t st1 with
            | .ok (w, l2, st2) => .ok (if v = w then 1 else 0, l2, st2)
            | .error st2 => .error st2)
         | '!' :: '=' :: t2 =>
           (match pexp f .padd t2 st1 with
            | .ok (w, l2, st2) => .ok (if v ≠ w then 1 else 0, l2, st2)
            | .error st2 => .error st2)
         | '!' :: t => .ok (v, '!' :: t, st1)
         | _ => .ok (v, l1, st1)
       | .error st1 => .error st1) := rfl

/-- C8 (amended), part of the space semantics of the evaluator:
(1) a space in operator position terminates the expression without an
error - if the leading factor parse stops at a space, the whole
`getparam` returns that factor's value with the cursor still on the
space, because none of the operator loops accepts a space;
(2) a space in operand position is silently skipped - `getval`'s
`getword` drops leading blanks, so the value read from a
space-prefixed cursor is the value read without the spaces. -/
theorem c8_space_semantics :
    (∀ (f : Nat) (l : List Char) (st : EvalSt) (v : Int) (r : List Char)
        (st1 : EvalSt),
        pexp f .pfact l st = .ok (v, ' ' :: r, st1) →
        pexp (f + 3) .pparam l st = .ok (v, ' ' :: r, st1)) ∧
    (∀ (k : Nat) (l : List Char) (st : EvalSt),
        getvalF (List.replicate k ' ' ++ l) st = getvalF l st) := by
  constructor
  · intro f l st v r st1 H
    cases f with
    | zero => exact absurd H (pexp_zero _ _ _ _)
    | succ g =>
      have e1 : pexp (g + 2) .pmult l st =
          (match pexp (g + 1) .pfact l st with
           | .ok (p, l', st') => pexp (g + 1) (.pmultl p) l' st'
           | .error st' => .error st') := rfl
      have hmult : pexp (g + 2) .pmult l st = .ok (v, ' ' :: r, st1) := by
        rw [e1, H]
        rfl
      have e2 : pexp (g + 3) .padd l st =
          (match pexp (g + 2) .pmult l st with
           | .ok (p, l', st') => pexp (g + 2) (.paddl p) l' st'
           | .error st' => .error st') := rfl
      have hadd : pexp (g + 3) .padd l st = .ok (v, ' ' :: r, st1) := by
        rw [e2, hmult]
        rfl
      show pexp (g + 4) .pparam l st = _
      rw [pexp_param_step, hadd]
      rfl
  · intro k l st
    unfold getvalF
    rw [getword_spaces]

/-- A concrete state for evaluator examples. -/
def sampleEvalSt : EvalSt := { seed := 1, drivesize := 0, vars := [] }

/-- C8 as stated is false: the expression `1+ 2`, which contains a
space between the `+` operator and its operand, evaluates successfully
to 3 with the whole input consumed - no error, and the evaluator does
not stop at the space. -/
theorem c8_counterexample :
    pexp 9 PLevel.pparam (("1+ 2").toList) sampleEvalSt =
      .ok (3, [], sampleEvalSt) := by
  rfl

/-- Witness for the amended C8: the factor of `5 +2` stops at the
space and the full expression parse returns the same value and
cursor. -/
theorem c8_witness :
    pexp 1 PLevel.pfact (("5 +2").toList) sampleEvalSt =
        .ok (5, (" +2").toList, sampleEvalSt) ∧
      pexp 4 PLevel.pparam (("5 +2").toList) sampleEvalSt =
        .ok (5, (" +2").toList, sampleEvalSt) :=
  ⟨rfl,
    c8_space_semantics.1 1 (("5 +2").toList) sampleEvalSt 5
      (('+') :: ('2') :: []) sampleEvalSt rfl⟩

end Discdiag
